import Mathlib

/-!
Shallow embedding of the Diamondz DEX core contracts (DiamondFactory,
DiamondPair, DiamondRouter) and proofs about their arithmetic and state
machine.  Machine integers are modelled as Nat; the uint112/uint32 range
checks the source performs are modelled as explicit guards.  External
effects (ERC20 token transfers and the flash-swap callback) enter the
model through the balance values the contract reads back afterwards,
which is all the source ever observes of them.  LP-share bookkeeping
(the inherited ERC20 _mint/_burn on the pair's own liquidity token) is
modelled as a per-holder balance map plus a total supply.
-/

/-- Failure outcomes of the contracts' require / assert / checked
arithmetic, one constructor per distinct revert site. -/
inductive DexError where
  | InsufficientOutputAmount
  | InsufficientLiquidity
  | InvalidTo
  | InsufficientInputAmount
  | KViolated
  | Overflow
  | TimestampUnderflow
  | SubUnderflow
  | DivByZero
  | InsufficientLiquidityMinted
  | InsufficientLiquidityBurned
  | IdenticalTokens
  | ZeroToken
  | PairExists
  | InsufficientAmount
  | InsufficientAAmount
  | InsufficientBAmount
  | AssertFailed
  | InvalidPath
  deriving DecidableEq, Repr

/-- Largest value of a uint112 (the reserves' storage width). -/
def UINT112MAX : Nat := 2 ^ 112 - 1

/-- Largest value of a uint256 (the width of every other unsigned word). -/
def UINT256MAX : Nat := 2 ^ 256 - 1

/-- SafeMath.sub, also Solidity 0.8 checked subtraction: reverts on
underflow. -/
def safeSub (a b : Nat) : Except DexError Nat :=
  if b ≤ a then .ok (a - b) else .error .SubUnderflow

/-- Storage of one DiamondPair contract: the two token addresses set by
the factory, both tracked reserves, the price-oracle accumulators, kLast,
and the LP-share (ERC20) bookkeeping of the pair's own liquidity token.
Addresses are Nats, 0 standing for address(0). -/
structure PairState where
  token0 : Nat
  token1 : Nat
  reserve0 : Nat
  reserve1 : Nat
  blockTimestampLast : Nat
  price0CumulativeLast : Nat
  price1CumulativeLast : Nat
  kLast : Nat
  totalSupply : Nat
  lp : Nat → Nat

/-- ERC20 _mint on the pair's LP token: credit `amount` shares to `to`
and grow the total supply. -/
def mintShares (st : PairState) (toAddr amount : Nat) : PairState :=
  { st with totalSupply := st.totalSupply + amount,
            lp := fun a => if a = toAddr then st.lp a + amount else st.lp a }

/-- ERC20 _burn on the pair's LP token: remove `amount` shares from
`holder` and shrink the total supply. -/
def burnShares (st : PairState) (holder amount : Nat) : PairState :=
  { st with totalSupply := st.totalSupply - amount,
            lp := fun a => if a = holder then st.lp a - amount else st.lp a }

namespace DiamondPair

/-- MINIMUM_LIQUIDITY from DiamondPair. -/
def MINIMUM_LIQUIDITY : Nat := 10 ^ 3

/-- DiamondPair._update: requires both balances to fit in a uint112,
advances the price accumulators on the first call of a new time unit,
then records the balances as the new reserves.  `time` is
block.timestamp; the source truncates it to uint32 and subtracts the
stored last timestamp with Solidity 0.8 checked uint32 arithmetic, so a
wrapped timestamp reverts; the checked additions into the uint256
accumulators likewise revert at 2^256.  The source's inner
`_reserve0 > 0` / `_reserve1 > 0` tests are subsumed by the outer
`_reserve0 != 0 && _reserve1 != 0` conjunct and are collapsed here. -/
def update (st : PairState) (balance0 balance1 r0 r1 time : Nat) :
    Except DexError PairState :=
  if balance0 > UINT112MAX ∨ balance1 > UINT112MAX then .error .Overflow
  else
    let blockTimestamp := time % 2 ^ 32
    if blockTimestamp < st.blockTimestampLast then .error .TimestampUnderflow
    else
      let timeElapsed := blockTimestamp - st.blockTimestampLast
      let p0 := if 0 < timeElapsed ∧ r0 ≠ 0 ∧ r1 ≠ 0 then
          st.price0CumulativeLast + r1 * 10 ^ 18 / r0 * timeElapsed
        else st.price0CumulativeLast
      let p1 := if 0 < timeElapsed ∧ r0 ≠ 0 ∧ r1 ≠ 0 then
          st.price1CumulativeLast + r0 * 10 ^ 18 / r1 * timeElapsed
        else st.price1CumulativeLast
      if p0 > UINT256MAX ∨ p1 > UINT256MAX then .error .Overflow
      else .ok { st with
        reserve0 := balance0
        reserve1 := balance1
        blockTimestampLast := blockTimestamp
        price0CumulativeLast := p0
        price1CumulativeLast := p1 }

/-- Implied input amount on one side of a swap:
`balanceX > reserveX - amountXOut ? balanceX - (reserveX - amountXOut) : 0`. -/
def amountInFor (balance reserve amountOut : Nat) : Nat :=
  if balance > reserve - amountOut then balance - (reserve - amountOut) else 0

/-- DiamondPair.swap.  `b0`/`b1` are the token balances the contract
reads back after the optimistic output transfers and the optional
flash-swap callback have run; everything the contract does with the
external world is captured by those two reads.  A returned error is a
revert: the transaction, transfers included, leaves no state change.
The two fee-adjusted SafeMath subtractions cannot underflow because
each implied input is at most the corresponding balance, so plain Nat
subtraction coincides with SafeMath.sub there. -/
def swap (st : PairState) (amount0Out amount1Out toAddr b0 b1 time : Nat) :
    Except DexError PairState :=
  if ¬(amount0Out > 0 ∨ amount1Out > 0) then .error .InsufficientOutputAmount
  else if ¬(amount0Out < st.reserve0 ∧ amount1Out < st.reserve1) then
    .error .InsufficientLiquidity
  else if toAddr = st.token0 ∨ toAddr = st.token1 then .error .InvalidTo
  else
    let amount0In := amountInFor b0 st.reserve0 amount0Out
    let amount1In := amountInFor b1 st.reserve1 amount1Out
    if ¬(amount0In > 0 ∨ amount1In > 0) then .error .InsufficientInputAmount
    else
      let balance0Adjusted := b0 * 1000 - amount0In * 3
      let balance1Adjusted := b1 * 1000 - amount1In * 3
      if ¬(balance0Adjusted * balance1Adjusted ≥
            st.reserve0 * st.reserve1 * 1000 ^ 2) then .error .KViolated
      else update st b0 b1 st.reserve0 st.reserve1 time

/-- Arguments of one swap call: the requested outputs, the recipient, the
balances read back after transfers and callback, and the call's
block.timestamp. -/
structure SwapCall where
  amount0Out : Nat
  amount1Out : Nat
  toAddr : Nat
  b0 : Nat
  b1 : Nat
  time : Nat

/-- A sequence of swap calls applied to one pool, each required to
succeed. -/
def swapSeq (st : PairState) : List SwapCall → Except DexError PairState
  | [] => .ok st
  | c :: rest =>
    match swap st c.amount0Out c.amount1Out c.toAddr c.b0 c.b1 c.time with
    | .error e => .error e
    | .ok st' => swapSeq st' rest

end DiamondPair

namespace Math

/-- Newton-iteration loop of Math.sqrt:
`while (x < z) { z = x; x = (y / x + x) / 2; }` returning `z`.  Each
pass replaces `z` by the strictly smaller `x`, so the pass count is
bounded by the initial `z`; `fuel` carries that bound structurally, and
`sqrt` below supplies `fuel = z`, which sqrtLoop_eq proves the loop
never exhausts (the fuel = 0 leaf is unreachable from `sqrt`). -/
def sqrtLoop (y : Nat) : Nat → Nat → Nat → Nat
  | 0, _, z => z
  | fuel + 1, x, z => if x < z then sqrtLoop y fuel ((y / x + x) / 2) x else z

/-- Math.sqrt from the DiamondPair helper library. -/
def sqrt (y : Nat) : Nat :=
  if y > 3 then sqrtLoop y y (y / 2 + 1) y
  else if y ≠ 0 then 1 else 0

end Math

namespace DiamondPair

/-- DiamondPair._mintFee.  `feeTo` and `feeDenom` are the factory's
feeTo and protocolFeeDenominator at call time.  Returns the feeOn flag
together with the possibly updated state (protocol-fee shares minted to
the collector, or kLast cleared when the collector is unset). -/
def mintFee (st : PairState) (feeTo feeDenom r0 r1 : Nat) :
    Bool × PairState :=
  if feeTo ≠ 0 then
    if st.kLast ≠ 0 then
      let rootK := Math.sqrt (r0 * r1)
      let rootKLast := Math.sqrt st.kLast
      if rootK > rootKLast then
        let numerator := st.totalSupply * (rootK - rootKLast)
        let denominator := rootK * feeDenom + rootKLast
        let liquidity := numerator / denominator
        if liquidity > 0 then (true, mintShares st feeTo liquidity)
        else (true, st)
      else (true, st)
    else (true, st)
  else if st.kLast ≠ 0 then (false, { st with kLast := 0 })
  else (false, st)

/-- DiamondPair.mint.  `b0`/`b1` are the pair's token balances read at
entry (the caller has already transferred the deposit in), `toAddr` the
share recipient.  Mirrors the source: credited amounts by SafeMath
subtraction, protocol-fee accrual, first-mint vs subsequent-mint share
formula, the liquidity > 0 require, the share mints, `_update`, and the
kLast refresh when the fee is on.  The subsequent-mint divisions revert
in Solidity when a reserve is zero, modelled as DivByZero. -/
def mint (st : PairState) (feeTo feeDenom b0 b1 toAddr time : Nat) :
    Except DexError (PairState × Nat) :=
  let r0 := st.reserve0
  let r1 := st.reserve1
  match safeSub b0 r0 with
  | .error e => .error e
  | .ok amount0 =>
  match safeSub b1 r1 with
  | .error e => .error e
  | .ok amount1 =>
  let fr := mintFee st feeTo feeDenom r0 r1
  let feeOn := fr.1
  let st1 := fr.2
  let branch : Except DexError (Nat × PairState) :=
    if st1.totalSupply = 0 then
      match safeSub (Math.sqrt (amount0 * amount1)) MINIMUM_LIQUIDITY with
      | .error e => .error e
      | .ok liquidity => .ok (liquidity, mintShares st1 0 MINIMUM_LIQUIDITY)
    else if r0 = 0 ∨ r1 = 0 then .error .DivByZero
    else .ok (min (amount0 * st1.totalSupply / r0)
                  (amount1 * st1.totalSupply / r1), st1)
  match branch with
  | .error e => .error e
  | .ok (liquidity, st2) =>
    if liquidity = 0 then .error .InsufficientLiquidityMinted
    else
      let st3 := mintShares st2 toAddr liquidity
      match update st3 b0 b1 r0 r1 time with
      | .error e => .error e
      | .ok st4 =>
        let st5 := if feeOn then
            { st4 with kLast := st4.reserve0 * st4.reserve1 } else st4
        .ok (st5, liquidity)

/-- DiamondPair.burn.  `selfAddr` is the pair contract's own address
(the holder whose returned LP shares are burned), `b0`/`b1` the token
balances read before the payout transfers, `b0x`/`b1x` the balances
read back after them.  The payout divisions revert in Solidity when the
total supply is zero, modelled as DivByZero. -/
def burn (st : PairState)
    (selfAddr feeTo feeDenom b0 b1 b0x b1x time : Nat) :
    Except DexError (PairState × Nat × Nat) :=
  let r0 := st.reserve0
  let r1 := st.reserve1
  let liquidity := st.lp selfAddr
  let fr := mintFee st feeTo feeDenom r0 r1
  let feeOn := fr.1
  let st1 := fr.2
  if st1.totalSupply = 0 then .error .DivByZero
  else
    let amount0 := liquidity * b0 / st1.totalSupply
    let amount1 := liquidity * b1 / st1.totalSupply
    if ¬(amount0 > 0 ∧ amount1 > 0) then .error .InsufficientLiquidityBurned
    else
      let st2 := burnShares st1 selfAddr liquidity
      match update st2 b0x b1x r0 r1 time with
      | .error e => .error e
      | .ok st3 =>
        let st4 := if feeOn then
            { st3 with kLast := st3.reserve0 * st3.reserve1 } else st3
        .ok (st4, amount0, amount1)

/-- DiamondPair.sync: force the tracked reserves to the current balances
through `_update`. -/
def sync (st : PairState) (b0 b1 time : Nat) : Except DexError PairState :=
  update st b0 b1 st.reserve0 st.reserve1 time

end DiamondPair

namespace DiamondRouter

/-- DiamondRouter.quote. -/
def quote (amountA reserveA reserveB : Nat) : Except DexError Nat :=
  if ¬(amountA > 0) then .error .InsufficientAmount
  else if ¬(reserveA > 0 ∧ reserveB > 0) then .error .InsufficientLiquidity
  else .ok (amountA * reserveB / reserveA)

/-- DiamondRouter.getAmountOut. -/
def getAmountOut (amountIn reserveIn reserveOut : Nat) :
    Except DexError Nat :=
  if ¬(amountIn > 0) then .error .InsufficientInputAmount
  else if ¬(reserveIn > 0 ∧ reserveOut > 0) then .error .InsufficientLiquidity
  else
    let amountInWithFee := amountIn * 997
    let numerator := amountInWithFee * reserveOut
    let denominator := reserveIn * 1000 + amountInWithFee
    .ok (numerator / denominator)

/-- DiamondRouter.getAmountIn.  `reserveOut.sub(amountOut)` is SafeMath,
so amountOut > reserveOut reverts there; amountOut = reserveOut makes
the denominator zero and the plain Solidity division revert, modelled
as DivByZero. -/
def getAmountIn (amountOut reserveIn reserveOut : Nat) :
    Except DexError Nat :=
  if ¬(amountOut > 0) then .error .InsufficientOutputAmount
  else if ¬(reserveIn > 0 ∧ reserveOut > 0) then .error .InsufficientLiquidity
  else
    let numerator := reserveIn * amountOut * 1000
    match safeSub reserveOut amountOut with
    | .error e => .error e
    | .ok d =>
      let denominator := d * 997
      if denominator = 0 then .error .DivByZero
      else .ok (numerator / denominator + 1)

/-- DiamondRouter.sortTokens. -/
def sortTokens (tokenA tokenB : Nat) : Except DexError (Nat × Nat) :=
  if tokenA = tokenB then .error .IdenticalTokens
  else
    let t0 := if tokenA < tokenB then tokenA else tokenB
    let t1 := if tokenA < tokenB then tokenB else tokenA
    if t0 = 0 then .error .ZeroToken else .ok (t0, t1)

/-- DiamondRouter.getReserves.  `pairAt` is the factory's getPair
mapping (0 = no pair) backing pairFor, and `resOf` gives each deployed
pair's (reserve0, reserve1); both stand for the live contract reads. -/
def getReserves (pairAt : Nat → Nat → Nat) (resOf : Nat → Nat × Nat)
    (tokenA tokenB : Nat) : Except DexError (Nat × Nat) :=
  match sortTokens tokenA tokenB with
  | .error e => .error e
  | .ok (t0, _) =>
    let pair := pairAt tokenA tokenB
    if pair = 0 then .ok (0, 0)
    else
      let r := resOf pair
      .ok (if tokenA = t0 then (r.1, r.2) else (r.2, r.1))

/-- Loop body of DiamondRouter.getAmountsOut: starting from the current
amount, fold getAmountOut along consecutive path hops, collecting every
intermediate amount. -/
def amountsOutLoop (pairAt : Nat → Nat → Nat) (resOf : Nat → Nat × Nat) :
    Nat → List Nat → Except DexError (List Nat)
  | aCur, t1 :: t2 :: rest =>
    match getReserves pairAt resOf t1 t2 with
    | .error e => .error e
    | .ok (reserveIn, reserveOut) =>
      match getAmountOut aCur reserveIn reserveOut with
      | .error e => .error e
      | .ok aNext =>
        match amountsOutLoop pairAt resOf aNext (t2 :: rest) with
        | .error e => .error e
        | .ok tail => .ok (aCur :: tail)
  | aCur, _ => .ok [aCur]

/-- DiamondRouter.getAmountsOut. -/
def getAmountsOut (pairAt : Nat → Nat → Nat) (resOf : Nat → Nat × Nat)
    (amountIn : Nat) (path : List Nat) : Except DexError (List Nat) :=
  if path.length < 2 then .error .InvalidPath
  else amountsOutLoop pairAt resOf amountIn path

/-- DiamondRouter.swapExactTokensForTokens.  The source signature is
`(uint amountIn, uint amountOutMin, address[] path, address to)`: it
computes the hop amounts, requires the final amount to meet
amountOutMin, then unconditionally transfers the input to the first
pair and executes the hops; there is no deadline parameter and no
block.timestamp read anywhere in the router.  The transfers and pair
swaps are external effects; the returned list is the amounts array the
call commits to. -/
def swapExactTokensForTokens (pairAt : Nat → Nat → Nat)
    (resOf : Nat → Nat × Nat) (amountIn amountOutMin : Nat)
    (path : List Nat) (toAddr : Nat) : Except DexError (List Nat) :=
  match getAmountsOut pairAt resOf amountIn path with
  | .error e => .error e
  | .ok amounts =>
    if ¬(amounts.getLastD 0 ≥ amountOutMin) then
      .error .InsufficientOutputAmount
    else .ok amounts

/-- DiamondRouter._calculateLiquidityAmounts.  `pairAddr` is
pairFor(tokenA, tokenB) and (`reserveA`, `reserveB`) the pair's reserves
oriented to the caller's token order, exactly the two reads the source
makes before its arithmetic. -/
def calculateLiquidityAmounts
    (pairAddr reserveA reserveB
     amountADesired amountBDesired amountAMin amountBMin : Nat) :
    Except DexError (Nat × Nat) :=
  if pairAddr = 0 then .ok (amountADesired, amountBDesired)
  else if reserveA = 0 ∧ reserveB = 0 then .ok (amountADesired, amountBDesired)
  else
    match quote amountADesired reserveA reserveB with
    | .error e => .error e
    | .ok amountBOptimal =>
      if amountBOptimal ≤ amountBDesired then
        if amountBOptimal ≥ amountBMin then .ok (amountADesired, amountBOptimal)
        else .error .InsufficientBAmount
      else
        match quote amountBDesired reserveB reserveA with
        | .error e => .error e
        | .ok amountAOptimal =>
          if ¬(amountAOptimal ≤ amountADesired) then .error .AssertFailed
          else if amountAOptimal ≥ amountAMin then .ok (amountAOptimal, amountBDesired)
          else .error .InsufficientAAmount

end DiamondRouter

/-- Storage of the DiamondFactory: the two-level getPair mapping
(0 = no pair), the append-only allPairs list, and the fee
configuration. -/
structure FactoryState where
  pairs : Nat → Nat → Nat
  allPairs : List Nat
  feeTo : Nat
  protocolFeeDenominator : Nat

/-- Point update of a two-key mapping, one Solidity
`m[x][y] = v` assignment. -/
def mapUpdate2 (m : Nat → Nat → Nat) (x y v : Nat) : Nat → Nat → Nat :=
  fun a b => if a = x ∧ b = y then v else m a b

namespace DiamondFactory

/-- DiamondFactory.createPair.  `newPair` is the address the create2
deployment yields; the source then registers it under both orderings
and appends it to allPairs. -/
def createPair (st : FactoryState) (tokenA tokenB newPair : Nat) :
    Except DexError (FactoryState × Nat) :=
  if tokenA = tokenB then .error .IdenticalTokens
  else
    let t0 := if tokenA < tokenB then tokenA else tokenB
    let t1 := if tokenA < tokenB then tokenB else tokenA
    if t0 = 0 then .error .ZeroToken
    else if st.pairs t0 t1 ≠ 0 then .error .PairExists
    else
      .ok ({ st with
        pairs := mapUpdate2 (mapUpdate2 st.pairs t0 t1 newPair) t1 t0 newPair,
        allPairs := st.allPairs ++ [newPair] }, newPair)

end DiamondFactory

/-- Concrete pool used to exercise swap: tokens 1 and 2, reserves
(1000, 1000), 5000 LP shares outstanding. -/
def fixPool : PairState :=
  ⟨1, 2, 1000, 1000, 0, 0, 0, 0, 5000, fun _ => 0⟩

/-- The pool state a swap of 90 token1 out for 100 token0 in leaves
behind: balances (1100, 910) recorded as the new reserves. -/
def fixPoolAfterSwap : PairState :=
  ⟨1, 2, 1100, 910, 0, 0, 0, 0, 5000, fun _ => 0⟩

/-- Freshly initialized empty pool for tokens 1 and 2. -/
def fixEmptyPool : PairState :=
  ⟨1, 2, 0, 0, 0, 0, 0, 0, 0, fun _ => 0⟩

/-- State after the first mint of (2000, 2000) into the empty pool by
depositor 7: 1000 shares locked at address 0, 1000 to the depositor,
reserves (2000, 2000). -/
def fixEmptyPoolAfterMint : PairState :=
  { mintShares (mintShares fixEmptyPool 0 1000) 7 1000 with
    reserve0 := 2000, reserve1 := 2000 }

/-- Factory getPair mapping with one pair: tokens 1 and 2 map to pool
address 5 in both orders. -/
def fixPairAt : Nat → Nat → Nat :=
  fun a b => if (a = 1 ∧ b = 2) ∨ (a = 2 ∧ b = 1) then 5 else 0

/-- Reserves of the deployed pools: pool 5 holds (1000, 1000). -/
def fixResOf : Nat → Nat × Nat :=
  fun p => if p = 5 then (1000, 1000) else (0, 0)

/-- Empty factory. -/
def fixFactory : FactoryState := ⟨fun _ _ => 0, [], 0, 5⟩

/-- Factory already holding pool 7 for the canonical pair (1, 2). -/
def fixFactoryWithPair : FactoryState :=
  ⟨fun a b => if a = 1 ∧ b = 2 then 7 else 0, [7], 0, 5⟩

namespace Math

theorem newton_ge_sqrt (y x : Nat) (hx : 0 < x) :
    Nat.sqrt y ≤ (y / x + x) / 2 := by
  have hsy : Nat.sqrt y * Nat.sqrt y ≤ y := Nat.sqrt_le y
  have hmain : 2 * Nat.sqrt y ≤ y / x + x := by
    rcases le_or_lt (2 * Nat.sqrt y) x with h | h
    · exact le_trans h (Nat.le_add_left x (y / x))
    · have key : (2 * Nat.sqrt y - x) * x ≤ Nat.sqrt y * Nat.sqrt y := by
        rw [Nat.sub_mul]
        have h2 : 2 * Nat.sqrt y * x ≤ Nat.sqrt y * Nat.sqrt y + x * x := by
          have h3 := two_mul_le_add_sq (Nat.sqrt y) x
          simpa [pow_two] using h3
        omega
      have hdiv : 2 * Nat.sqrt y - x ≤ y / x :=
        (Nat.le_div_iff_mul_le hx).mpr (le_trans key hsy)
      omega
  exact (Nat.le_div_iff_mul_le (by norm_num)).mpr (by omega)

theorem sqrtLoop_eq (y : Nat) : ∀ fuel x z, z ≤ fuel → 0 < Nat.sqrt y →
    Nat.sqrt y ≤ x → Nat.sqrt y ≤ z → (z ≤ x → z * z ≤ y) →
    sqrtLoop y fuel x z = Nat.sqrt y := by
  intro fuel
  induction fuel with
  | zero =>
    intro x z hfz hpos hx hz hexit
    exfalso
    omega
  | succ fuel ih =>
    intro x z hfz hpos hx hz hexit
    unfold sqrtLoop
    split
    · next h =>
      apply ih
      · omega
      · exact hpos
      · exact newton_ge_sqrt y x (lt_of_lt_of_le hpos hx)
      · exact hx
      · intro hle
        have h2 : x * 2 ≤ y / x + x :=
          (Nat.le_div_iff_mul_le (by norm_num)).mp hle
        have h3 : x ≤ y / x := by omega
        exact (Nat.le_div_iff_mul_le (lt_of_lt_of_le hpos hx)).mp h3
    · next h =>
      have hzx : z ≤ x := le_of_not_lt h
      have hzz : z * z ≤ y := hexit hzx
      have : z ≤ Nat.sqrt y := Nat.le_sqrt.mpr hzz
      omega

theorem sqrt_eq_nat_sqrt (y : Nat) : Math.sqrt y = Nat.sqrt y := by
  unfold Math.sqrt
  split
  · next h =>
    have hs2 : 2 ≤ Nat.sqrt y := Nat.le_sqrt.mpr (by omega)
    have hsy : Nat.sqrt y * Nat.sqrt y ≤ y := Nat.sqrt_le y
    apply sqrtLoop_eq
    · exact le_refl y
    · omega
    · have h2s : 2 * Nat.sqrt y ≤ Nat.sqrt y * Nat.sqrt y := by nlinarith
      have : Nat.sqrt y ≤ y / 2 :=
        (Nat.le_div_iff_mul_le (by norm_num)).mpr (by omega)
      omega
    · exact Nat.sqrt_le_self y
    · intro hyx
      exfalso
      omega
  · split
    · next h h1 =>
      exact Nat.eq_sqrt.mpr ⟨by omega, by omega⟩
    · next h h1 =>
      have h0 : y = 0 := by omega
      subst h0
      exact Nat.sqrt_zero.symm

/-- C10: for every natural number y, the Newton-iteration loop in
Math.sqrt terminates (the definition is total, by the strictly
decreasing measure z) and returns the integer square root: a z with
z*z ≤ y and y < (z+1)*(z+1). -/
theorem sqrt_is_integer_sqrt (y : Nat) :
    Math.sqrt y * Math.sqrt y ≤ y ∧
    y < (Math.sqrt y + 1) * (Math.sqrt y + 1) := by
  rw [sqrt_eq_nat_sqrt]
  exact ⟨Nat.sqrt_le y, Nat.lt_succ_sqrt y⟩

end Math

namespace DiamondPair

theorem update_ok {st st' : PairState} {b0 b1 r0 r1 time : Nat}
    (h : update st b0 b1 r0 r1 time = .ok st') :
    st'.reserve0 = b0 ∧ st'.reserve1 = b1 ∧ st'.lp = st.lp ∧
    st'.totalSupply = st.totalSupply ∧ st'.kLast = st.kLast ∧
    st'.token0 = st.token0 ∧ st'.token1 = st.token1 := by
  simp only [update] at h
  repeat' split at h
  all_goals first
  | exact Except.noConfusion h
  | (simp only [Except.ok.injEq] at h
     subst h
     exact ⟨rfl, rfl, rfl, rfl, rfl, rfl, rfl⟩)

theorem k_implies_product_monotone (r0 r1 a0In a1In b0 b1 : Nat)
    (hK : (b0 * 1000 - a0In * 3) * (b1 * 1000 - a1In * 3) ≥
      r0 * r1 * 1000 ^ 2) : r0 * r1 ≤ b0 * b1 := by
  have h2 : r0 * r1 * 1000 ^ 2 ≤ b0 * b1 * 1000 ^ 2 := by
    calc r0 * r1 * 1000 ^ 2
        ≤ (b0 * 1000 - a0In * 3) * (b1 * 1000 - a1In * 3) := hK
      _ ≤ b0 * 1000 * (b1 * 1000) :=
          Nat.mul_le_mul (Nat.sub_le _ _) (Nat.sub_le _ _)
      _ = b0 * b1 * 1000 ^ 2 := by ring
  exact Nat.le_of_mul_le_mul_right h2 (by norm_num)

theorem swap_ok {st st' : PairState} {a0Out a1Out toAddr b0 b1 time : Nat}
    (h : swap st a0Out a1Out toAddr b0 b1 time = .ok st') :
    (b0 * 1000 - amountInFor b0 st.reserve0 a0Out * 3) *
      (b1 * 1000 - amountInFor b1 st.reserve1 a1Out * 3) ≥
      st.reserve0 * st.reserve1 * 1000 ^ 2 ∧
    st'.reserve0 = b0 ∧ st'.reserve1 = b1 ∧ st'.lp = st.lp ∧
    st'.totalSupply = st.totalSupply ∧
    st.reserve0 * st.reserve1 ≤ st'.reserve0 * st'.reserve1 := by
  simp only [swap] at h
  split at h
  · simp at h
  · split at h
    · simp at h
    · split at h
      · simp at h
      · split at h
        · simp at h
        · split at h
          · simp at h
          · next hK =>
            push_neg at hK
            obtain ⟨e0, e1, elp, ets, _, _, _⟩ := update_ok h
            refine ⟨hK, e0, e1, elp, ets, ?_⟩
            rw [e0, e1]
            exact k_implies_product_monotone _ _ _ _ _ _ hK

/-- C1: for every Pool and every successful call to swap, the
fee-adjusted balances satisfy
(balance0*1000 - amount0In*3) * (balance1*1000 - amount1In*3) >=
reserve0 * reserve1 * 1000^2 at the moment the new reserves (the read
balances) are recorded, and consequently the product
reserve0 * reserve1 never decreases across one swap nor across any
sequence of successful swaps. -/
theorem swap_k_invariant_and_product_monotone :
    (∀ (st : PairState) (a0Out a1Out toAddr b0 b1 time : Nat)
       (st' : PairState),
       swap st a0Out a1Out toAddr b0 b1 time = .ok st' →
       (b0 * 1000 - amountInFor b0 st.reserve0 a0Out * 3) *
         (b1 * 1000 - amountInFor b1 st.reserve1 a1Out * 3) ≥
         st.reserve0 * st.reserve1 * 1000 ^ 2 ∧
       st'.reserve0 = b0 ∧ st'.reserve1 = b1 ∧
       st.reserve0 * st.reserve1 ≤ st'.reserve0 * st'.reserve1) ∧
    (∀ (st : PairState) (calls : List SwapCall) (st' : PairState),
       swapSeq st calls = .ok st' →
       st.reserve0 * st.reserve1 ≤ st'.reserve0 * st'.reserve1) := by
  constructor
  · intro st a0Out a1Out toAddr b0 b1 time st' h
    obtain ⟨hK, e0, e1, _, _, hmono⟩ := swap_ok h
    exact ⟨hK, e0, e1, hmono⟩
  · intro st calls
    induction calls generalizing st with
    | nil =>
      intro st' h
      simp only [swapSeq, Except.ok.injEq] at h
      subst h
      exact le_refl _
    | cons c rest ih =>
      intro st' h
      simp only [swapSeq] at h
      split at h
      · simp at h
      · next stm hm =>
        exact le_trans (swap_ok hm).2.2.2.2.2 (ih stm st' h)

/-- C8: swap fails with InsufficientOutputAmount whenever both requested
outputs are zero (in particular swap(0,0,to,data) always does, leaving
the pool unchanged since an error is a revert), and fails with
InsufficientLiquidity whenever some output is positive but not both
outputs are strictly below the corresponding reserves. -/
theorem swap_zero_output_and_liquidity_guards :
    ∀ (st : PairState) (a0Out a1Out toAddr b0 b1 time : Nat),
      (a0Out = 0 ∧ a1Out = 0 →
        swap st a0Out a1Out toAddr b0 b1 time =
          .error .InsufficientOutputAmount) ∧
      ((a0Out > 0 ∨ a1Out > 0) →
        ¬(a0Out < st.reserve0 ∧ a1Out < st.reserve1) →
        swap st a0Out a1Out toAddr b0 b1 time =
          .error .InsufficientLiquidity) := by
  intro st a0Out a1Out toAddr b0 b1 time
  constructor
  · rintro ⟨rfl, rfl⟩
    simp [swap]
  · intro hpos hnl
    simp only [swap]
    rw [if_neg (not_not_intro hpos), if_pos hnl]

/-- C9: whenever the recipient of swap equals token0 or token1 the call
can never succeed, whatever balances the transfers would have produced
(so it fails before any output transfer matters), and as soon as the
two preceding output checks pass the error is exactly InvalidTo. -/
theorem swap_invalid_to_guard :
    ∀ (st : PairState) (a0Out a1Out toAddr b0 b1 time : Nat),
      toAddr = st.token0 ∨ toAddr = st.token1 →
      (∀ st', swap st a0Out a1Out toAddr b0 b1 time ≠ .ok st') ∧
      ((a0Out > 0 ∨ a1Out > 0) → a0Out < st.reserve0 →
        a1Out < st.reserve1 →
        swap st a0Out a1Out toAddr b0 b1 time = .error .InvalidTo) := by
  intro st a0Out a1Out toAddr b0 b1 time hto
  have h2 : (a0Out > 0 ∨ a1Out > 0) → a0Out < st.reserve0 →
      a1Out < st.reserve1 →
      swap st a0Out a1Out toAddr b0 b1 time = .error .InvalidTo := by
    intro hpos h0 h1
    simp only [swap]
    rw [if_neg (not_not_intro hpos), if_neg (not_not_intro ⟨h0, h1⟩),
      if_pos hto]
  refine ⟨?_, h2⟩
  intro st' h
  by_cases hpos : a0Out > 0 ∨ a1Out > 0
  · by_cases hlt : a0Out < st.reserve0 ∧ a1Out < st.reserve1
    · rw [h2 hpos hlt.1 hlt.2] at h
      simp at h
    · simp only [swap] at h
      rw [if_neg (not_not_intro hpos), if_pos hlt] at h
      simp at h
  · simp only [swap] at h
    rw [if_pos hpos] at h
    simp at h

end DiamondPair

theorem safeSub_ok {a b c : Nat} (h : safeSub a b = .ok c) :
    b ≤ a ∧ c = a - b := by
  unfold safeSub at h
  split at h
  · next hle =>
    simp only [Except.ok.injEq] at h
    exact ⟨hle, h.symm⟩
  · exact Except.noConfusion h

theorem mintShares_lp (st : PairState) (t amt a : Nat) :
    (mintShares st t amt).lp a = if a = t then st.lp a + amt else st.lp a :=
  rfl

theorem mintShares_ts (st : PairState) (t amt : Nat) :
    (mintShares st t amt).totalSupply = st.totalSupply + amt := rfl

theorem burnShares_lp (st : PairState) (t amt a : Nat) :
    (burnShares st t amt).lp a = if a = t then st.lp a - amt else st.lp a :=
  rfl

namespace DiamondPair

theorem mintFee_ts_zero {st : PairState} (feeTo feeDenom r0 r1 : Nat)
    (h : st.totalSupply = 0) :
    (mintFee st feeTo feeDenom r0 r1).2 = st ∨
    (mintFee st feeTo feeDenom r0 r1).2 = { st with kLast := 0 } := by
  simp only [mintFee, h, Nat.zero_mul, Nat.zero_div, gt_iff_lt,
    lt_self_iff_false, if_false]
  split
  · split
    · split
      · exact Or.inl rfl
      · exact Or.inl rfl
    · exact Or.inl rfl
  · split
    · exact Or.inr rfl
    · exact Or.inl rfl

theorem mintFee_preserve_ts_lp (st : PairState) (feeTo feeDenom r0 r1 : Nat)
    (h : st.totalSupply = 0) :
    ((mintFee st feeTo feeDenom r0 r1).2).totalSupply = 0 ∧
    ((mintFee st feeTo feeDenom r0 r1).2).lp = st.lp := by
  rcases mintFee_ts_zero feeTo feeDenom r0 r1 h with hc | hc <;> rw [hc] <;>
    exact ⟨h, rfl⟩

theorem mintFee_lp_mono (st : PairState) (feeTo feeDenom r0 r1 a : Nat) :
    st.lp a ≤ ((mintFee st feeTo feeDenom r0 r1).2).lp a := by
  simp only [mintFee]
  repeat' split
  all_goals first
  | exact le_refl _
  | (rw [mintShares_lp]; split <;> omega)

end DiamondPair

namespace DiamondPair

/-- C2: a first mint into an empty pool (totalSupply = 0) with credited
deposits a = balance0 - reserve0 and b = balance1 - reserve1 mints
exactly floor(sqrt(a*b)) - MINIMUM_LIQUIDITY shares to the depositor
and exactly MINIMUM_LIQUIDITY = 1000 shares to the zero address, and no
pool operation (mint, burn from the pair's nonzero address, swap, sync)
ever decreases the zero address's share balance. -/
theorem first_mint_locks_minimum_liquidity :
    (∀ (st : PairState) (feeTo feeDenom b0 b1 toAddr time : Nat)
       (st' : PairState) (liq : Nat),
       st.totalSupply = 0 → toAddr ≠ 0 →
       mint st feeTo feeDenom b0 b1 toAddr time = .ok (st', liq) →
       liq = Nat.sqrt ((b0 - st.reserve0) * (b1 - st.reserve1)) -
         MINIMUM_LIQUIDITY ∧
       MINIMUM_LIQUIDITY = 1000 ∧
       st'.lp toAddr = st.lp toAddr + liq ∧
       st'.lp 0 = st.lp 0 + MINIMUM_LIQUIDITY ∧
       st'.totalSupply =
         Nat.sqrt ((b0 - st.reserve0) * (b1 - st.reserve1))) ∧
    (∀ (st : PairState) (feeTo feeDenom b0 b1 toAddr time : Nat)
       (st' : PairState) (liq : Nat),
       mint st feeTo feeDenom b0 b1 toAddr time = .ok (st', liq) →
       st.lp 0 ≤ st'.lp 0) ∧
    (∀ (st : PairState) (selfAddr feeTo feeDenom b0 b1 b0x b1x time : Nat)
       (st' : PairState) (a0 a1 : Nat),
       selfAddr ≠ 0 →
       burn st selfAddr feeTo feeDenom b0 b1 b0x b1x time =
         .ok (st', a0, a1) →
       st.lp 0 ≤ st'.lp 0) ∧
    (∀ (st : PairState) (a0Out a1Out toAddr b0 b1 time : Nat)
       (st' : PairState),
       swap st a0Out a1Out toAddr b0 b1 time = .ok st' →
       st'.lp 0 = st.lp 0) ∧
    (∀ (st : PairState) (b0 b1 time : Nat) (st' : PairState),
       sync st b0 b1 time = .ok st' → st'.lp 0 = st.lp 0) := by
  refine ⟨?_, ?_, ?_, ?_, ?_⟩
  · -- first mint
    intro st feeTo feeDenom b0 b1 toAddr time st' liq h0 hto h
    obtain ⟨hts1, hlp1⟩ :=
      mintFee_preserve_ts_lp st feeTo feeDenom st.reserve0 st.reserve1 h0
    simp only [mint] at h
    split at h
    · exact Except.noConfusion h
    · next amount0 ha0 =>
      split at h
      · exact Except.noConfusion h
      · next amount1 ha1 =>
        rw [if_pos hts1] at h
        split at h
        · exact Except.noConfusion h
        · next liquidity hliq =>
          split at hliq
          · exact Except.noConfusion hliq
          · next l hsub =>
            simp only [Except.ok.injEq, Prod.mk.injEq] at hliq
            obtain ⟨hle, hsubeq⟩ := safeSub_ok hsub
            obtain ⟨hr0, ha0e⟩ := safeSub_ok ha0
            obtain ⟨hr1, ha1e⟩ := safeSub_ok ha1
            obtain ⟨hl1, hl2⟩ := hliq
            split at h
            · exact Except.noConfusion h
            · split at h
              · exact Except.noConfusion h
              · next st4 hupd =>
                simp only [Except.ok.injEq, Prod.mk.injEq] at h
                obtain ⟨hst', hliqeq⟩ := h
                obtain ⟨u0, u1, ulp, uts, _, _, _⟩ := update_ok hupd
                have hsq : Math.sqrt (amount0 * amount1) =
                    Nat.sqrt ((b0 - st.reserve0) * (b1 - st.reserve1)) := by
                  rw [Math.sqrt_eq_nat_sqrt, ha0e, ha1e]
                have hlp' : st'.lp = st4.lp := by
                  rw [← hst']
                  split <;> rfl
                have hts' : st'.totalSupply = st4.totalSupply := by
                  rw [← hst']
                  split <;> rfl
                have hMIN : MINIMUM_LIQUIDITY = 1000 := by
                  norm_num [MINIMUM_LIQUIDITY]
                refine ⟨?_, hMIN, ?_, ?_, ?_⟩
                · rw [← hliqeq, ← hl1, hsubeq, hsq]
                · rw [hlp', ulp, mintShares_lp, if_pos rfl, ← hl2,
                    mintShares_lp, if_neg hto, hlp1, hliqeq]
                · rw [hlp', ulp, mintShares_lp, if_neg (Ne.symm hto), ← hl2,
                    mintShares_lp, if_pos rfl, hlp1]
                · rw [hts', uts, mintShares_ts, ← hl2, mintShares_ts, hts1,
                    ← hsq]
                  omega
  · -- mint never decreases the zero-address balance
    intro st feeTo feeDenom b0 b1 toAddr time st' liq h
    simp only [mint] at h
    split at h
    · exact Except.noConfusion h
    · next amount0 ha0 =>
      split at h
      · exact Except.noConfusion h
      · next amount1 ha1 =>
        split at h
        · exact Except.noConfusion h
        · next L st2 hbr =>
          split at h
          · exact Except.noConfusion h
          · split at h
            · exact Except.noConfusion h
            · next st4 hupd =>
              simp only [Except.ok.injEq, Prod.mk.injEq] at h
              obtain ⟨hst', _⟩ := h
              have hlp' : st'.lp = st4.lp := by
                rw [← hst']
                split <;> rfl
              have ulp := (update_ok hupd).2.2.1
              have hK := mintFee_lp_mono st feeTo feeDenom
                st.reserve0 st.reserve1 0
              have h2 : st.lp 0 ≤ st2.lp 0 := by
                split at hbr
                · split at hbr
                  · exact Except.noConfusion hbr
                  · next l hsub =>
                    simp only [Except.ok.injEq, Prod.mk.injEq] at hbr
                    rw [← hbr.2, mintShares_lp, if_pos rfl]
                    omega
                · split at hbr
                  · exact Except.noConfusion hbr
                  · simp only [Except.ok.injEq, Prod.mk.injEq] at hbr
                    rw [← hbr.2]
                    exact hK
              rw [hlp', ulp, mintShares_lp]
              split <;> omega
  · -- burn from a nonzero pair address never decreases it either
    intro st selfAddr feeTo feeDenom b0 b1 b0x b1x time st' a0 a1 hself h
    simp only [burn] at h
    split at h
    · exact Except.noConfusion h
    · split at h
      · exact Except.noConfusion h
      · split at h
        · exact Except.noConfusion h
        · next st3 hupd =>
          simp only [Except.ok.injEq, Prod.mk.injEq] at h
          obtain ⟨hst', _, _⟩ := h
          have hlp' : st'.lp = st3.lp := by
            rw [← hst']
            split <;> rfl
          have ulp := (update_ok hupd).2.2.1
          rw [hlp', ulp, burnShares_lp, if_neg (Ne.symm hself)]
          exact mintFee_lp_mono st feeTo feeDenom st.reserve0 st.reserve1 0
  · -- swap leaves all LP balances unchanged
    intro st a0Out a1Out toAddr b0 b1 time st' h
    exact congrFun (swap_ok h).2.2.2.1 0
  · -- sync leaves all LP balances unchanged
    intro st b0 b1 time st' h
    simp only [sync] at h
    exact congrFun (update_ok h).2.2.1 0


end DiamondPair

theorem lt_succ_div_mul (N D : Nat) (hD : 0 < D) : N < (N / D + 1) * D := by
  have hdm := Nat.div_add_mod N D
  have hml : N % D < D := Nat.mod_lt _ hD
  have he : (N / D + 1) * D = D * (N / D) + D := by ring
  omega

namespace DiamondRouter

/-- C5: getAmountOut returns floor((amountIn*997) * reserveOut /
(reserveIn*1000 + amountIn*997)) when amountIn, reserveIn and reserveOut
are all positive, fails with InsufficientInputAmount exactly when
amountIn = 0, and fails with InsufficientLiquidity exactly when
amountIn > 0 but a reserve is 0. -/
theorem getAmountOut_spec :
    ∀ amountIn reserveIn reserveOut : Nat,
      (0 < amountIn → 0 < reserveIn → 0 < reserveOut →
        getAmountOut amountIn reserveIn reserveOut =
          .ok (amountIn * 997 * reserveOut /
            (reserveIn * 1000 + amountIn * 997))) ∧
      (amountIn = 0 →
        getAmountOut amountIn reserveIn reserveOut =
          .error .InsufficientInputAmount) ∧
      (0 < amountIn → (reserveIn = 0 ∨ reserveOut = 0) →
        getAmountOut amountIn reserveIn reserveOut =
          .error .InsufficientLiquidity) := by
  intro aIn rIn rOut
  refine ⟨?_, ?_, ?_⟩
  · intro h1 h2 h3
    simp only [getAmountOut]
    rw [if_neg (not_not_intro h1), if_neg (not_not_intro ⟨h2, h3⟩)]
  · rintro rfl
    simp [getAmountOut]
  · intro h1 h2
    simp only [getAmountOut]
    rw [if_neg (not_not_intro h1),
      if_pos (show ¬(rIn > 0 ∧ rOut > 0) by rintro ⟨ha, hb⟩; omega)]

/-- C3: for positive amountOut and reserveIn with amountOut < reserveOut,
getAmountIn succeeds, feeding its result back into getAmountOut
succeeds, and the round trip returns at least the requested amountOut:
the composition never favors the caller. -/
theorem getAmountIn_getAmountOut_round_trip :
    ∀ amountOut reserveIn reserveOut : Nat,
      0 < amountOut → 0 < reserveIn → amountOut < reserveOut →
      ∃ amountIn amountBack : Nat,
        getAmountIn amountOut reserveIn reserveOut = .ok amountIn ∧
        getAmountOut amountIn reserveIn reserveOut = .ok amountBack ∧
        amountOut ≤ amountBack := by
  intro aOut rIn rOut h1 h2 h3
  have hrOut : 0 < rOut := lt_of_le_of_lt (Nat.zero_le _) h3
  have hDpos : 0 < (rOut - aOut) * 997 :=
    Nat.mul_pos (by omega) (by norm_num)
  refine ⟨rIn * aOut * 1000 / ((rOut - aOut) * 997) + 1,
    (rIn * aOut * 1000 / ((rOut - aOut) * 997) + 1) * 997 * rOut /
      (rIn * 1000 + (rIn * aOut * 1000 / ((rOut - aOut) * 997) + 1) * 997),
    ?_, ?_, ?_⟩
  · simp only [getAmountIn]
    rw [if_neg (not_not_intro h1), if_neg (not_not_intro ⟨h2, hrOut⟩),
      show safeSub rOut aOut = .ok (rOut - aOut) from by
        simp [safeSub, Nat.le_of_lt h3]]
    dsimp only
    rw [if_neg (by omega)]
  · simp only [getAmountOut]
    rw [if_neg (not_not_intro (Nat.succ_pos _)),
      if_neg (not_not_intro ⟨h2, hrOut⟩)]
  · have hden : 0 < rIn * 1000 +
        (rIn * aOut * 1000 / ((rOut - aOut) * 997) + 1) * 997 := by
      positivity
    apply (Nat.le_div_iff_mul_le hden).mpr
    have hND : rIn * aOut * 1000 <
        (rIn * aOut * 1000 / ((rOut - aOut) * 997) + 1) *
          ((rOut - aOut) * 997) :=
      lt_succ_div_mul _ _ hDpos
    have e : rOut = (rOut - aOut) + aOut := by omega
    calc aOut * (rIn * 1000 +
          (rIn * aOut * 1000 / ((rOut - aOut) * 997) + 1) * 997)
        = rIn * aOut * 1000 +
          (rIn * aOut * 1000 / ((rOut - aOut) * 997) + 1) * 997 * aOut := by
          ring
      _ ≤ (rIn * aOut * 1000 / ((rOut - aOut) * 997) + 1) *
            ((rOut - aOut) * 997) +
          (rIn * aOut * 1000 / ((rOut - aOut) * 997) + 1) * 997 * aOut :=
          Nat.add_le_add_right (le_of_lt hND) _
      _ = (rIn * aOut * 1000 / ((rOut - aOut) * 997) + 1) * 997 *
            ((rOut - aOut) + aOut) := by ring
      _ = (rIn * aOut * 1000 / ((rOut - aOut) * 997) + 1) * 997 * rOut := by
          rw [← e]

theorem quote_ok {amountA reserveA reserveB : Nat} (h1 : 0 < amountA)
    (h2 : 0 < reserveA) (h3 : 0 < reserveB) :
    quote amountA reserveA reserveB = .ok (amountA * reserveB / reserveA) := by
  simp only [quote]
  rw [if_neg (not_not_intro h1), if_neg (not_not_intro ⟨h2, h3⟩)]

/-- C6: the amounts an addLiquidity call deposits.  When no pair exists
or both reserves are zero the desired amounts pass through unmodified;
against a pool with positive reserves, if the quoted B fits within
desiredB the deposited amounts are (desiredA, quotedB) subject to
quotedB >= minB (else InsufficientBAmount), otherwise they are
(quotedA, desiredB) subject to quotedA >= minA (else
InsufficientAAmount); the source's assert quotedA <= desiredA is shown
never to fire. -/
theorem calculateLiquidityAmounts_spec :
    ∀ pairAddr reserveA reserveB aDes bDes aMin bMin : Nat,
      (pairAddr = 0 →
        calculateLiquidityAmounts pairAddr reserveA reserveB aDes bDes
          aMin bMin = .ok (aDes, bDes)) ∧
      (reserveA = 0 ∧ reserveB = 0 →
        calculateLiquidityAmounts pairAddr reserveA reserveB aDes bDes
          aMin bMin = .ok (aDes, bDes)) ∧
      (pairAddr ≠ 0 → 0 < reserveA → 0 < reserveB → 0 < aDes → 0 < bDes →
        (aDes * reserveB / reserveA ≤ bDes →
          (bMin ≤ aDes * reserveB / reserveA →
            calculateLiquidityAmounts pairAddr reserveA reserveB aDes bDes
              aMin bMin = .ok (aDes, aDes * reserveB / reserveA)) ∧
          (aDes * reserveB / reserveA < bMin →
            calculateLiquidityAmounts pairAddr reserveA reserveB aDes bDes
              aMin bMin = .error .InsufficientBAmount)) ∧
        (bDes < aDes * reserveB / reserveA →
          (aMin ≤ bDes * reserveA / reserveB →
            calculateLiquidityAmounts pairAddr reserveA reserveB aDes bDes
              aMin bMin = .ok (bDes * reserveA / reserveB, bDes)) ∧
          (bDes * reserveA / reserveB < aMin →
            calculateLiquidityAmounts pairAddr reserveA reserveB aDes bDes
              aMin bMin = .error .InsufficientAAmount))) := by
  intro pairAddr rA rB aDes bDes aMin bMin
  refine ⟨?_, ?_, ?_⟩
  · intro h
    simp only [calculateLiquidityAmounts]
    rw [if_pos h]
  · rintro ⟨ha, hb⟩
    simp only [calculateLiquidityAmounts]
    subst ha hb
    split
    · rfl
    · rw [if_pos ⟨rfl, rfl⟩]
  · intro hp hrA hrB haD hbD
    have hq1 : quote aDes rA rB = .ok (aDes * rB / rA) := quote_ok haD hrA hrB
    constructor
    · intro hle
      constructor
      · intro hmin
        simp only [calculateLiquidityAmounts]
        rw [if_neg hp, if_neg (by omega), hq1]
        dsimp only
        rw [if_pos hle, if_pos hmin]
      · intro hmin
        simp only [calculateLiquidityAmounts]
        rw [if_neg hp, if_neg (by omega), hq1]
        dsimp only
        rw [if_pos hle, if_neg (by omega)]
    · intro hlt
      have hq2 : quote bDes rB rA = .ok (bDes * rA / rB) := quote_ok hbD hrB hrA
      have hassert : bDes * rA / rB ≤ aDes := by
        have h1 : bDes + 1 ≤ aDes * rB / rA := hlt
        have h2 : (bDes + 1) * rA ≤ aDes * rB :=
          (Nat.le_div_iff_mul_le hrA).mp h1
        have h3 : bDes * rA / rB ≤ aDes * rB / rB :=
          Nat.div_le_div_right (by nlinarith)
        rwa [Nat.mul_div_cancel aDes hrB] at h3
      constructor
      · intro hmin
        simp only [calculateLiquidityAmounts]
        rw [if_neg hp, if_neg (by omega), hq1]
        dsimp only
        rw [if_neg (by omega), hq2]
        dsimp only
        rw [if_neg (not_not_intro hassert), if_pos hmin]
      · intro hmin
        simp only [calculateLiquidityAmounts]
        rw [if_neg hp, if_neg (by omega), hq1]
        dsimp only
        rw [if_neg (by omega), hq2]
        dsimp only
        rw [if_neg (not_not_intro hassert), if_neg (by omega)]

end DiamondRouter

namespace DiamondFactory

/-- C7: createPair fails with IdenticalTokens when tokenA = tokenB;
fails with ZeroToken when the tokens differ and either is the null
identifier 0 (the code checks only the canonically smaller token, and 0
always sorts first in the Nat order used here); fails with PairExists
when a pool is already registered for the unordered pair; and on
success registers exactly one new pool, retrievable under both argument
orderings, appending it once to allPairs and touching no other mapping
entry. -/
theorem createPair_spec :
    ∀ (st : FactoryState) (tokenA tokenB newPair : Nat),
      (tokenA = tokenB →
        createPair st tokenA tokenB newPair = .error .IdenticalTokens) ∧
      (tokenA ≠ tokenB → (tokenA = 0 ∨ tokenB = 0) →
        createPair st tokenA tokenB newPair = .error .ZeroToken) ∧
      (tokenA ≠ tokenB → tokenA ≠ 0 → tokenB ≠ 0 →
        st.pairs (min tokenA tokenB) (max tokenA tokenB) ≠ 0 →
        createPair st tokenA tokenB newPair = .error .PairExists) ∧
      (tokenA ≠ tokenB → tokenA ≠ 0 → tokenB ≠ 0 →
        st.pairs (min tokenA tokenB) (max tokenA tokenB) = 0 →
        ∃ st' : FactoryState,
          createPair st tokenA tokenB newPair = .ok (st', newPair) ∧
          st'.pairs tokenA tokenB = newPair ∧
          st'.pairs tokenB tokenA = newPair ∧
          st'.allPairs = st.allPairs ++ [newPair] ∧
          (∀ x y : Nat, st'.pairs x y ≠ st.pairs x y →
            (x = tokenA ∧ y = tokenB) ∨ (x = tokenB ∧ y = tokenA))) := by
  intro st tokenA tokenB newPair
  refine ⟨?_, ?_, ?_, ?_⟩
  · intro h
    simp only [createPair]
    rw [if_pos h]
  · intro hne h0
    simp only [createPair]
    rw [if_neg hne, if_pos (by rcases h0 with h | h <;> subst h <;> simp)]
  · intro hne h0a h0b hex
    simp only [createPair]
    rw [if_neg hne,
      if_neg (show ¬(if tokenA < tokenB then tokenA else tokenB) = 0 by
        split <;> omega),
      if_pos (show st.pairs (if tokenA < tokenB then tokenA else tokenB)
          (if tokenA < tokenB then tokenB else tokenA) ≠ 0 by
        rcases Nat.lt_or_ge tokenA tokenB with h | h
        · rw [if_pos h, if_pos h]
          have e1 : min tokenA tokenB = tokenA := by omega
          have e2 : max tokenA tokenB = tokenB := by omega
          rw [e1, e2] at hex
          exact hex
        · rw [if_neg (by omega), if_neg (by omega)]
          have e1 : min tokenA tokenB = tokenB := by omega
          have e2 : max tokenA tokenB = tokenA := by omega
          rw [e1, e2] at hex
          exact hex)]
  · intro hne h0a h0b hnew
    rcases Nat.lt_or_ge tokenA tokenB with h | h
    · have e1 : min tokenA tokenB = tokenA := by omega
      have e2 : max tokenA tokenB = tokenB := by omega
      rw [e1, e2] at hnew
      have hsimp : createPair st tokenA tokenB newPair =
          .ok ({ st with
            pairs := mapUpdate2 (mapUpdate2 st.pairs tokenA tokenB newPair)
              tokenB tokenA newPair,
            allPairs := st.allPairs ++ [newPair] }, newPair) := by
        simp only [createPair, if_pos h]
        rw [if_neg hne, if_neg h0a, if_neg (not_not_intro hnew)]
      refine ⟨_, hsimp, ?_, ?_, rfl, ?_⟩
      · simp [mapUpdate2, hne]
      · simp [mapUpdate2]
      · intro x y hxy
        simp only [mapUpdate2] at hxy
        by_cases hc1 : x = tokenB ∧ y = tokenA
        · exact Or.inr hc1
        · rw [if_neg hc1] at hxy
          by_cases hc2 : x = tokenA ∧ y = tokenB
          · exact Or.inl hc2
          · rw [if_neg hc2] at hxy
            exact absurd rfl hxy
    · have e1 : min tokenA tokenB = tokenB := by omega
      have e2 : max tokenA tokenB = tokenA := by omega
      rw [e1, e2] at hnew
      have hsimp : createPair st tokenA tokenB newPair =
          .ok ({ st with
            pairs := mapUpdate2 (mapUpdate2 st.pairs tokenB tokenA newPair)
              tokenA tokenB newPair,
            allPairs := st.allPairs ++ [newPair] }, newPair) := by
        simp only [createPair, if_neg (show ¬tokenA < tokenB by omega)]
        rw [if_neg hne, if_neg h0b, if_neg (not_not_intro hnew)]
      refine ⟨_, hsimp, ?_, ?_, rfl, ?_⟩
      · simp [mapUpdate2]
      · simp [mapUpdate2, Ne.symm hne]
      · intro x y hxy
        simp only [mapUpdate2] at hxy
        by_cases hc1 : x = tokenA ∧ y = tokenB
        · exact Or.inl hc1
        · rw [if_neg hc1] at hxy
          by_cases hc2 : x = tokenB ∧ y = tokenA
          · exact Or.inr hc2
          · rw [if_neg hc2] at hxy
            exact absurd rfl hxy

end DiamondFactory

/-- C4: the router's swapExactTokensForTokens takes no deadline
parameter and reads no clock, so a call executes identically whatever
the current time and whatever deadline the caller intended: here a
single-hop swap through the (1,2) pool succeeds even when the intended
deadline lies strictly in the past, where the specification demands a
failure before any transfer. -/
theorem DiamondRouter.swapExactTokensForTokens_ignores_deadline :
    ∀ currentTime deadline : Nat, deadline < currentTime →
      DiamondRouter.swapExactTokensForTokens fixPairAt fixResOf
        100 0 [1, 2] 9 = .ok [100, 90] := by
  intro currentTime deadline h
  rfl

theorem DiamondRouter.swapExactTokensForTokens_ignores_deadline_witness :
    DiamondRouter.swapExactTokensForTokens fixPairAt fixResOf
      100 0 [1, 2] 9 = .ok [100, 90] :=
  DiamondRouter.swapExactTokensForTokens_ignores_deadline 1700000000 0
    (by decide)

theorem mint_concrete :
    DiamondPair.mint fixEmptyPool 0 5 2000 2000 7 0 =
      .ok (fixEmptyPoolAfterMint, 1000) := rfl

theorem DiamondPair.swap_k_invariant_witness :
    (1100 * 1000 - DiamondPair.amountInFor 1100 fixPool.reserve0 0 * 3) *
      (910 * 1000 - DiamondPair.amountInFor 910 fixPool.reserve1 90 * 3) ≥
      fixPool.reserve0 * fixPool.reserve1 * 1000 ^ 2 ∧
    fixPool.reserve0 * fixPool.reserve1 ≤
      fixPoolAfterSwap.reserve0 * fixPoolAfterSwap.reserve1 := by
  have h := DiamondPair.swap_k_invariant_and_product_monotone
  have h1 := h.1 fixPool 0 90 5 1100 910 0 fixPoolAfterSwap rfl
  have h2 := h.2 fixPool [⟨0, 90, 5, 1100, 910, 0⟩] fixPoolAfterSwap rfl
  exact ⟨h1.1, h2⟩

theorem DiamondPair.first_mint_witness :
    (1000 : Nat) =
      Nat.sqrt ((2000 - fixEmptyPool.reserve0) *
        (2000 - fixEmptyPool.reserve1)) - DiamondPair.MINIMUM_LIQUIDITY ∧
    fixEmptyPoolAfterMint.lp 0 =
      fixEmptyPool.lp 0 + DiamondPair.MINIMUM_LIQUIDITY ∧
    fixEmptyPoolAfterMint.lp 7 = fixEmptyPool.lp 7 + 1000 := by
  have h := (DiamondPair.first_mint_locks_minimum_liquidity).1 fixEmptyPool
    0 5 2000 2000 7 0 fixEmptyPoolAfterMint 1000 rfl (by decide)
    mint_concrete
  exact ⟨h.1, h.2.2.2.1, h.2.2.1⟩

theorem DiamondRouter.round_trip_witness :
    (0 < (10 : Nat)) ∧
    ∃ amountIn amountBack : Nat,
      DiamondRouter.getAmountIn 10 1000 1000 = .ok amountIn ∧
      DiamondRouter.getAmountOut amountIn 1000 1000 = .ok amountBack ∧
      10 ≤ amountBack :=
  ⟨by decide, DiamondRouter.getAmountIn_getAmountOut_round_trip 10 1000 1000
    (by decide) (by decide) (by decide)⟩

theorem DiamondRouter.getAmountOut_witness :
    DiamondRouter.getAmountOut 100 1000 1000 = .ok 90 ∧
    DiamondRouter.getAmountOut 0 1000 1000 =
      .error .InsufficientInputAmount ∧
    DiamondRouter.getAmountOut 100 0 1000 =
      .error .InsufficientLiquidity := by
  refine ⟨?_, ?_, ?_⟩
  · have h := (DiamondRouter.getAmountOut_spec 100 1000 1000).1
      (by decide) (by decide) (by decide)
    exact h.trans rfl
  · exact (DiamondRouter.getAmountOut_spec 0 1000 1000).2.1 rfl
  · exact (DiamondRouter.getAmountOut_spec 100 0 1000).2.2 (by decide)
      (Or.inl rfl)

theorem DiamondRouter.calculateLiquidityAmounts_witness :
    DiamondRouter.calculateLiquidityAmounts 0 0 0 11 22 0 0 =
      .ok (11, 22) ∧
    DiamondRouter.calculateLiquidityAmounts 5 1000 1000 100 200 0 50 =
      .ok (100, 100) ∧
    DiamondRouter.calculateLiquidityAmounts 5 1000 1000 300 100 50 0 =
      .ok (100, 100) := by
  have t := DiamondRouter.calculateLiquidityAmounts_spec
  refine ⟨(t 0 0 0 11 22 0 0).1 rfl, ?_, ?_⟩
  · have h := (((t 5 1000 1000 100 200 0 50).2.2 (by decide) (by decide)
      (by decide) (by decide) (by decide)).1 (by decide)).1 (by decide)
    exact h.trans rfl
  · have h := (((t 5 1000 1000 300 100 50 0).2.2 (by decide) (by decide)
      (by decide) (by decide) (by decide)).2 (by decide)).1 (by decide)
    exact h.trans rfl

theorem DiamondFactory.createPair_witness :
    DiamondFactory.createPair fixFactory 3 3 9 = .error .IdenticalTokens ∧
    DiamondFactory.createPair fixFactory 0 5 9 = .error .ZeroToken ∧
    DiamondFactory.createPair fixFactoryWithPair 1 2 9 =
      .error .PairExists ∧
    (∃ st' : FactoryState,
      DiamondFactory.createPair fixFactory 1 2 9 = .ok (st', 9) ∧
      st'.pairs 1 2 = 9 ∧ st'.pairs 2 1 = 9 ∧
      st'.allPairs = fixFactory.allPairs ++ [9] ∧
      (∀ x y : Nat, st'.pairs x y ≠ fixFactory.pairs x y →
        (x = 1 ∧ y = 2) ∨ (x = 2 ∧ y = 1))) := by
  have t := DiamondFactory.createPair_spec
  exact ⟨(t fixFactory 3 3 9).1 rfl,
    (t fixFactory 0 5 9).2.1 (by decide) (Or.inl rfl),
    (t fixFactoryWithPair 1 2 9).2.2.1 (by decide) (by decide) (by decide)
      (by decide),
    (t fixFactory 1 2 9).2.2.2 (by decide) (by decide) (by decide) rfl⟩

theorem DiamondPair.swap_guards_witness :
    DiamondPair.swap fixPool 0 0 5 1100 910 0 =
      .error .InsufficientOutputAmount ∧
    DiamondPair.swap fixPool 1000 0 5 1100 910 0 =
      .error .InsufficientLiquidity := by
  have t := DiamondPair.swap_zero_output_and_liquidity_guards
  exact ⟨(t fixPool 0 0 5 1100 910 0).1 ⟨rfl, rfl⟩,
    (t fixPool 1000 0 5 1100 910 0).2 (Or.inl (by decide)) (by decide)⟩

theorem DiamondPair.swap_invalid_to_witness :
    DiamondPair.swap fixPool 0 90 1 1100 910 0 = .error .InvalidTo := by
  have t := DiamondPair.swap_invalid_to_guard fixPool 0 90 1 1100 910 0
    (Or.inl rfl)
  exact t.2 (Or.inr (by decide)) (by decide) (by decide)
